import Mathlib

/-!
Verification of `momepy/intensity.py` against its specification.

The module is embedded shallowly:

* Coordinates, radii and attribute values are exact rationals (`ℚ`): the
  Python floats are modelled by the real numbers they denote, and every
  quantity the code computes with them is rational.
* The Euclidean distance `cpt.distance(p)` between two points is represented
  by its square (`sqDist`), which keeps the embedding executable: for
  nonnegative `d`, `Real.sqrt d < r ↔ (0 < r ∧ d < r * r)` and
  `Real.sqrt` is monotone, so both the strict filter `dist < radius` and the
  sort by `(dist, n)` are captured exactly (lemmas `sqrt_lt_iff_distLt` and
  `sqrt_key_lt` below justify this).
* A GeoDataFrame is a list of geometries (`geoms`) plus an attribute table
  (`Frame`): an ordered column-name list and one cell row per record.  Row
  labels are the default `RangeIndex`, so identifiers are list positions.
* `radius` is only ever invoked by this module on centroid datasets, whose
  geometries are points; the spatial index of a point dataset returns exactly
  the records whose coordinates fall in the query bounding box.  The rtree
  reports candidates in an index-dependent order, but the final sort is by a
  total order on pairs with pairwise-distinct identifiers, so the result does
  not depend on that order; the model enumerates candidates positionally.
* Fallible pandas operations (`KeyError`, `IndexError`, `ZeroDivisionError`)
  are modelled with `Except String`.
-/

namespace Momepy

/-- A planar point with exact rational coordinates. -/
structure Point where
  x : ℚ
  y : ℚ
deriving DecidableEq, Repr

/-- Squared Euclidean distance between two points: the code's
`cpt.distance(p)` is `Real.sqrt (sqDist cpt p)`. -/
def sqDist (a b : Point) : ℚ :=
  (a.x - b.x) * (a.x - b.x) + (a.y - b.y) * (a.y - b.y)

/-- Membership of the point `p` in the query box
`(cpt.x - r, cpt.y - r, cpt.x + r, cpt.y + r)` (intensity.py line 37): for a
point geometry this is exactly the spatial-index bounding-box intersection
test of line 40. -/
def bboxHit (cpt : Point) (r : ℚ) (p : Point) : Bool :=
  decide (cpt.x - r ≤ p.x) && decide (p.x ≤ cpt.x + r) &&
    decide (cpt.y - r ≤ p.y) && decide (p.y ≤ cpt.y + r)

/-- The strict distance test `dist < radius` of intensity.py line 42, stated
on the squared distance: for `0 ≤ d`, `Real.sqrt d < r` holds iff
`0 < r ∧ d < r * r` (lemma `sqrt_lt_iff_distLt`). -/
def distLt (d r : ℚ) : Bool :=
  decide (0 < r) && decide (d < r * r)

/-- The candidate loop of intensity.py lines 39-43: walk the dataset from
position `n`, keep each bounding-box candidate whose exact distance is below
the radius, recording the pair `(squared distance, identifier)`. -/
def goodAux (cpt : Point) (r : ℚ) : ℕ → List Point → List (ℚ × ℕ)
  | _, [] => []
  | n, p :: ps =>
      (bif bboxHit cpt r p && distLt (sqDist cpt p) r then [(sqDist cpt p, n)] else [])
        ++ goodAux cpt r (n + 1) ps

/-- Python's tuple order on `(dist, n)` pairs, used by `good.sort()`
(intensity.py line 45); stated on squared distances, which orders the pairs
identically because squaring is strictly monotone on nonnegative reals. -/
def lexLe (a b : ℚ × ℕ) : Bool :=
  decide (a.1 < b.1) || (decide (a.1 = b.1) && decide (a.2 ≤ b.2))

/-- The neighbour query `radius(gpd_df, cpt, radius)` of intensity.py lines
11-47: bounding-box candidates, exact-distance strict filter, ascending sort
by `(dist, n)`, then the identifier projection of line 47. -/
def radius (gpd_df : List Point) (cpt : Point) (r : ℚ) : List ℕ :=
  ((goodAux cpt r 0 gpd_df).mergeSort lexLe).map Prod.snd

/-- Squared distance of the center to the record at position `n`, the sort
key a returned identifier stands for. -/
def keyAt (gpd_df : List Point) (cpt : Point) (n : ℕ) : ℚ :=
  sqDist cpt (gpd_df.getD n ⟨0, 0⟩)

lemma sqDist_nonneg (a b : Point) : 0 ≤ sqDist a b := by
  have h1 := mul_self_nonneg (a.x - b.x)
  have h2 := mul_self_nonneg (a.y - b.y)
  unfold sqDist
  linarith

/-- Justification of the squared-distance embedding of the strict filter:
for a nonnegative squared distance `d`, the float test `dist < radius` of
intensity.py line 42 is `distLt d r`. -/
lemma sqrt_lt_iff_distLt (d r : ℚ) :
    (Real.sqrt d < (r : ℝ)) ↔ distLt d r = true := by
  unfold distLt
  rcases le_or_lt r 0 with hr | hr
  · constructor
    · intro h
      exact absurd (lt_of_le_of_lt (Real.sqrt_nonneg _) h)
        (by exact_mod_cast not_lt.mpr hr)
    · intro h
      simp only [Bool.and_eq_true, decide_eq_true_eq] at h
      exact absurd h.1 (not_lt.mpr hr)
  · have hrR : (0 : ℝ) < (r : ℝ) := by exact_mod_cast hr
    rw [Real.sqrt_lt' hrR]
    simp only [Bool.and_eq_true, decide_eq_true_eq]
    constructor
    · intro h
      refine ⟨hr, ?_⟩
      have : ((d : ℝ)) < (r : ℝ) * (r : ℝ) := by
        calc (d : ℝ) < (r : ℝ) ^ 2 := h
        _ = (r : ℝ) * (r : ℝ) := sq (r : ℝ)
      exact_mod_cast this
    · intro ⟨_, h⟩
      have : ((d : ℝ)) < (r : ℝ) * (r : ℝ) := by exact_mod_cast h
      calc (d : ℝ) < (r : ℝ) * (r : ℝ) := this
      _ = (r : ℝ) ^ 2 := (sq (r : ℝ)).symm

/-- Justification of the squared-distance sort key: on nonnegative squared
distances the order of the true distances is the order of the keys. -/
lemma sqrt_key_lt (d e : ℚ) (hd : 0 ≤ d) (hde : d < e) :
    Real.sqrt d < Real.sqrt e := by
  apply Real.sqrt_lt_sqrt (by exact_mod_cast hd)
  exact_mod_cast hde

/-- Membership in the candidate loop output: exactly the records in the query
box whose distance passes the strict filter, keyed by squared distance and
shifted position. -/
lemma goodAux_mem (cpt : Point) (r : ℚ) :
    ∀ (l : List Point) (k : ℕ) (d : ℚ) (n : ℕ),
      (d, n) ∈ goodAux cpt r k l ↔
        ∃ j p, l[j]? = some p ∧ n = k + j ∧ bboxHit cpt r p = true ∧
          distLt (sqDist cpt p) r = true ∧ d = sqDist cpt p := by
  intro l
  induction l with
  | nil => intro k d n; simp [goodAux]
  | cons p ps ih =>
    intro k d n
    cases hc : bboxHit cpt r p && distLt (sqDist cpt p) r with
    | true =>
      have hc' := Bool.and_eq_true _ _ |>.mp hc
      simp only [goodAux, hc, cond_true, List.cons_append, List.nil_append, List.mem_cons,
        Prod.mk.injEq, ih]
      constructor
      · rintro (⟨hd, hn⟩ | ⟨j, q, hq, hn, hb, hlt, hd⟩)
        · exact ⟨0, p, by simp, by omega, hc'.1, hc'.2, hd⟩
        · exact ⟨j + 1, q, by simpa using hq, by omega, hb, hlt, hd⟩
      · rintro ⟨j, q, hq, hn, hb, hlt, hd⟩
        cases j with
        | zero =>
          simp only [List.getElem?_cons_zero, Option.some.injEq] at hq
          exact Or.inl ⟨by rw [hd, hq], by omega⟩
        | succ j =>
          exact Or.inr ⟨j, q, by simpa using hq, by omega, hb, hlt, hd⟩
    | false =>
      simp only [goodAux, hc, cond_false, List.nil_append, ih]
      constructor
      · rintro ⟨j, q, hq, hn, hb, hlt, hd⟩
        exact ⟨j + 1, q, by simpa using hq, by omega, hb, hlt, hd⟩
      · rintro ⟨j, q, hq, hn, hb, hlt, hd⟩
        cases j with
        | zero =>
          simp only [List.getElem?_cons_zero, Option.some.injEq] at hq
          rw [← hq] at hb hlt
          rw [hb, hlt] at hc
          simp at hc
        | succ j =>
          exact ⟨j, q, by simpa using hq, by omega, hb, hlt, hd⟩

/-- Every identifier the candidate loop emits from position `k` on is at
least `k`. -/
lemma goodAux_snd_lb (cpt : Point) (r : ℚ) :
    ∀ (l : List Point) (k m : ℕ), m ∈ (goodAux cpt r k l).map Prod.snd → k ≤ m := by
  intro l
  induction l with
  | nil => intro k m h; simp [goodAux] at h
  | cons p ps ih =>
    intro k m h
    simp only [goodAux, List.map_append, List.mem_append] at h
    rcases h with h | h
    · cases hc : bboxHit cpt r p && distLt (sqDist cpt p) r with
      | true => rw [hc] at h; simp at h; omega
      | false => rw [hc] at h; simp at h
    · have := ih (k + 1) m h
      omega

/-- The identifiers the candidate loop emits are strictly increasing, hence
pairwise distinct. -/
lemma goodAux_snd_sorted (cpt : Point) (r : ℚ) :
    ∀ (l : List Point) (k : ℕ), ((goodAux cpt r k l).map Prod.snd).Pairwise (· < ·) := by
  intro l
  induction l with
  | nil => intro k; simp [goodAux]
  | cons p ps ih =>
    intro k
    simp only [goodAux, List.map_append]
    apply List.pairwise_append.mpr
    refine ⟨?_, ih (k + 1), ?_⟩
    · cases hc : bboxHit cpt r p && distLt (sqDist cpt p) r <;> simp [hc]
    · intro a ha b hb
      cases hc : bboxHit cpt r p && distLt (sqDist cpt p) r with
      | true =>
        rw [hc] at ha
        simp at ha
        have := goodAux_snd_lb cpt r ps (k + 1) b hb
        omega
      | false =>
        rw [hc] at ha
        simp at ha

lemma lexLe_trans :
    ∀ a b c : ℚ × ℕ, lexLe a b = true → lexLe b c = true → lexLe a c = true := by
  intro a b c hab hbc
  simp only [lexLe, Bool.or_eq_true, Bool.and_eq_true, decide_eq_true_eq] at *
  rcases hab with h1 | ⟨h1, h1'⟩ <;> rcases hbc with h2 | ⟨h2, h2'⟩
  · exact Or.inl (lt_trans h1 h2)
  · exact Or.inl (h2 ▸ h1)
  · exact Or.inl (h1 ▸ h2)
  · exact Or.inr ⟨h1.trans h2, le_trans h1' h2'⟩

lemma lexLe_total : ∀ a b : ℚ × ℕ, (lexLe a b || lexLe b a) = true := by
  intro a b
  simp only [lexLe, Bool.or_eq_true, Bool.and_eq_true, decide_eq_true_eq]
  rcases lt_trichotomy a.1 b.1 with h | h | h
  · exact Or.inl (Or.inl h)
  · rcases le_total a.2 b.2 with h2 | h2
    · exact Or.inl (Or.inr ⟨h, h2⟩)
    · exact Or.inr (Or.inr ⟨h.symm, h2⟩)
  · exact Or.inr (Or.inl h)

/-- Characterisation of the returned identifiers: `n` is returned exactly
when record `n` exists, its bounding box meets the query box and its distance
passes the strict filter. -/
lemma mem_radius_iff (gpd_df : List Point) (cpt : Point) (r : ℚ) (n : ℕ) :
    n ∈ radius gpd_df cpt r ↔
      ∃ p, gpd_df[n]? = some p ∧ bboxHit cpt r p = true ∧
        distLt (sqDist cpt p) r = true := by
  unfold radius
  rw [List.mem_map]
  constructor
  · rintro ⟨⟨d, m⟩, hm, rfl⟩
    have hg := (List.mergeSort_perm (goodAux cpt r 0 gpd_df) lexLe).mem_iff.mp hm
    obtain ⟨j, p, hp, hn, hb, hlt, _⟩ := (goodAux_mem cpt r gpd_df 0 d m).mp hg
    exact ⟨p, by simpa [hn] using hp, hb, hlt⟩
  · rintro ⟨p, hp, hb, hlt⟩
    refine ⟨(sqDist cpt p, n), ?_, rfl⟩
    apply (List.mergeSort_perm (goodAux cpt r 0 gpd_df) lexLe).mem_iff.mpr
    exact (goodAux_mem cpt r gpd_df 0 (sqDist cpt p) n).mpr
      ⟨n, p, hp, by omega, hb, hlt, rfl⟩

/-- Every pair the sorted candidate list holds carries the squared distance
of the record its identifier names, and that identifier is in range. -/
lemma mem_mergeSort_key (gpd_df : List Point) (cpt : Point) (r : ℚ) :
    ∀ a ∈ (goodAux cpt r 0 gpd_df).mergeSort lexLe,
      a.1 = keyAt gpd_df cpt a.2 := by
  intro a ha
  have hg := (List.mergeSort_perm (goodAux cpt r 0 gpd_df) lexLe).mem_iff.mp ha
  obtain ⟨j, p, hp, hn, _, _, hd⟩ :=
    (goodAux_mem cpt r gpd_df 0 a.1 a.2).mp (by simpa using hg)
  have : gpd_df.getD a.2 ⟨0, 0⟩ = p := by
    have := List.getD_eq_getElem?_getD gpd_df a.2 (⟨0, 0⟩ : Point)
    rw [this, hn]
    simp [hp]
  rw [keyAt, this, hd]

/-- C1. For every dataset, center point and radius, every identifier the
neighbour query `radius` returns names an existing record whose exact
Euclidean distance to the center is strictly below the radius (so records
exactly at the boundary are excluded), and the returned list is sorted
ascending by the pair (distance, identifier). -/
theorem radius_members_lt_and_sorted (gpd_df : List Point) (cpt : Point) (r : ℚ) :
    (∀ n ∈ radius gpd_df cpt r, ∃ p, gpd_df[n]? = some p ∧
        Real.sqrt (sqDist cpt p) < (r : ℝ)) ∧
      (radius gpd_df cpt r).Pairwise (fun m n =>
        Real.sqrt (keyAt gpd_df cpt m) < Real.sqrt (keyAt gpd_df cpt n) ∨
          (Real.sqrt (keyAt gpd_df cpt m) = Real.sqrt (keyAt gpd_df cpt n) ∧ m < n)) := by
  constructor
  · intro n hn
    obtain ⟨p, hp, _, hlt⟩ := (mem_radius_iff gpd_df cpt r n).mp hn
    exact ⟨p, hp, (sqrt_lt_iff_distLt (sqDist cpt p) r).mpr hlt⟩
  · have hperm := List.mergeSort_perm (goodAux cpt r 0 gpd_df) lexLe
    have hsorted := List.sorted_mergeSort lexLe_trans lexLe_total (goodAux cpt r 0 gpd_df)
    have hnodupG : ((goodAux cpt r 0 gpd_df).map Prod.snd).Nodup :=
      (goodAux_snd_sorted cpt r gpd_df 0).imp (fun h => Nat.ne_of_lt h)
    have hnodupS : (((goodAux cpt r 0 gpd_df).mergeSort lexLe).map Prod.snd).Nodup :=
      ((hperm.map Prod.snd).nodup_iff).mpr hnodupG
    have hne : ((goodAux cpt r 0 gpd_df).mergeSort lexLe).Pairwise
        (fun a b => a.2 ≠ b.2) := List.pairwise_map.mp hnodupS
    unfold radius
    rw [List.pairwise_map]
    refine ((hsorted.and hne).imp_of_mem ?_)
    intro a b ha hb hab
    obtain ⟨hle, hne2⟩ := hab
    have hka := mem_mergeSort_key gpd_df cpt r a ha
    have hkb := mem_mergeSort_key gpd_df cpt r b hb
    have hnonneg : 0 ≤ a.1 := hka ▸ sqDist_nonneg _ _
    simp only [lexLe, Bool.or_eq_true, Bool.and_eq_true, decide_eq_true_eq] at hle
    rcases hle with hlt | ⟨heq, hle2⟩
    · exact Or.inl (by rw [← hka, ← hkb]; exact sqrt_key_lt a.1 b.1 hnonneg hlt)
    · exact Or.inr ⟨by rw [← hka, ← hkb, heq], lt_of_le_of_ne hle2 hne2⟩

/-- C8. Monotonicity of the neighbour query in the radius: whenever
`r ≤ rbig`, every identifier returned at radius `r` is also returned at
radius `rbig`. -/
theorem radius_monotone (gpd_df : List Point) (cpt : Point) (r rbig : ℚ)
    (h : r ≤ rbig) :
    ∀ n, n ∈ radius gpd_df cpt r → n ∈ radius gpd_df cpt rbig := by
  intro n hn
  obtain ⟨p, hp, hb, hlt⟩ := (mem_radius_iff gpd_df cpt r n).mp hn
  simp only [bboxHit, Bool.and_eq_true, decide_eq_true_eq] at hb
  simp only [distLt, Bool.and_eq_true, decide_eq_true_eq] at hlt
  obtain ⟨⟨⟨hb1, hb2⟩, hb3⟩, hb4⟩ := hb
  obtain ⟨hr, hsq⟩ := hlt
  apply (mem_radius_iff gpd_df cpt rbig n).mpr
  refine ⟨p, hp, ?_, ?_⟩
  · simp only [bboxHit, Bool.and_eq_true, decide_eq_true_eq]
    exact ⟨⟨⟨by linarith, by linarith⟩, by linarith⟩, by linarith⟩
  · simp only [distLt, Bool.and_eq_true, decide_eq_true_eq]
    have : r * r ≤ rbig * rbig := by nlinarith
    exact ⟨by linarith, by linarith⟩

/-- Witness for C8: at the dataset with one point at the origin, with the
origin as center and radii 1 ≤ 2, the monotone inclusion holds. -/
theorem radius_monotone_witness :
    ((1 : ℚ) ≤ 2) ∧
      ∀ n, n ∈ radius [⟨0, 0⟩] ⟨0, 0⟩ 1 → n ∈ radius [⟨0, 0⟩] ⟨0, 0⟩ 2 :=
  ⟨by decide, radius_monotone [⟨0, 0⟩] ⟨0, 0⟩ 1 2 (by decide)⟩

/-- A cell of an attribute table: a float held exactly as a rational, or one
of the IEEE special values pandas produces (NaN for missing data, signed
infinities from float division by zero). -/
inductive Val where
  | num : ℚ → Val
  | nan : Val
  | pinf : Val
  | ninf : Val
deriving DecidableEq, Repr

/-- An attribute table: ordered column labels and one cell row per record.
Row labels are the default RangeIndex, so records are list positions. -/
structure Frame where
  cols : List String
  rows : List (List Val)
deriving DecidableEq, Repr

/-- Position of a column label among the columns (pandas resolves a label to
its first occurrence). -/
def colIdx : List String → String → Option ℕ
  | [], _ => none
  | c :: cs, d => if c = d then some 0 else (colIdx cs d).map (· + 1)

/-- The cell of `row` under the column label `c`. -/
def getVal (cols : List String) (row : List Val) (c : String) : Option Val :=
  (colIdx cols c).bind fun i => row[i]?

/-- Cell of record `i` under column `c`. -/
def cellAt (f : Frame) (i : ℕ) (c : String) : Option Val :=
  f.rows[i]?.bind fun row => getVal f.cols row c

/-- Column projection `df[[c₁, c₂]]` (intensity.py lines 133 and 188):
KeyError when a requested label is missing, else the sub-table holding the
requested columns in the requested order. -/
def select (f : Frame) (cs : List String) : Except String Frame :=
  if cs.all (fun c => f.cols.contains c) then
    .ok ⟨cs, f.rows.map fun row => cs.map fun c => (getVal f.cols row c).getD Val.nan⟩
  else .error "KeyError: column not found"

/-- Column assignment `df[c] = vals`: overwrite the column when the label
exists, append a new column otherwise; `vals` holds one value per record. -/
def setCol (f : Frame) (c : String) (vals : List Val) : Frame :=
  match colIdx f.cols c with
  | some i => ⟨f.cols, f.rows.zipWith (fun row v => row.set i v) vals⟩
  | none => ⟨f.cols ++ [c], f.rows.zipWith (fun row v => row ++ [v]) vals⟩

/-- A geometry: a point, or a polygon given by its exterior ring. -/
inductive Geometry where
  | point : Point → Geometry
  | polygon : List Point → Geometry
deriving DecidableEq, Repr

/-- Twice the signed shoelace area of a ring. -/
def shoelace (vs : List Point) : ℚ :=
  ((vs.zip (vs.rotate 1)).map fun pq => pq.1.x * pq.2.y - pq.2.x * pq.1.y).sum

/-- Geometric area (shapely `.area`): zero for a point, the absolute
shoelace area for a polygon. -/
def Geometry.area : Geometry → ℚ
  | .point _ => 0
  | .polygon vs => |shoelace vs| / 2

/-- Centroid (shapely `.centroid`) as a point: a point is its own centroid,
a polygon gets the standard area-weighted formula.  A degenerate zero-area
ring falls back to the origin; no claim of this development depends on that
value, only on `centroid` being a fixed function of the geometry. -/
def Geometry.centroid : Geometry → Point
  | .point p => p
  | .polygon vs =>
      let a2 := shoelace vs
      if a2 = 0 then ⟨0, 0⟩
      else
        ⟨((vs.zip (vs.rotate 1)).map fun pq =>
            (pq.1.x + pq.2.x) * (pq.1.x * pq.2.y - pq.2.x * pq.1.y)).sum / (3 * a2),
          ((vs.zip (vs.rotate 1)).map fun pq =>
            (pq.1.y + pq.2.y) * (pq.1.x * pq.2.y - pq.2.x * pq.1.y)).sum / (3 * a2)⟩

/-- A GeoDataFrame: one geometry per record plus the attribute table (the
geometry column is kept apart from the attribute cells). -/
structure GeoFrame where
  geoms : List Geometry
  attrs : Frame
deriving DecidableEq, Repr

/-- Error-propagating traversal: evaluate `f` on the elements left to right
and stop at the first raised error, as the Python loops do. -/
def exMap {α β : Type} (f : α → Except String β) : List α → Except String (List β)
  | [] => .ok []
  | a :: l => do
      let b ← f a
      let bs ← exMap f l
      .ok (b :: bs)

/-- Option to Except: a failed pandas lookup raises. -/
def req {α : Type} (e : String) : Option α → Except String α
  | some a => .ok a
  | none => .error e

/-- The frequency pass of intensity.py lines 50-96: both datasets are
replaced by their centroids, and every record of `objects` receives the
number of neighbours `radius` finds among `look_for`'s centroids within the
fixed radius 400.  The value of record `i` is a function of that record's
centroid and of `look_for` only, so it does not depend on the iteration
order over `objects`.  `id_column` is accepted and never used, exactly as in
the source. -/
def frequency (objects look_for : GeoFrame) (column_name : String)
    (id_column : String := "uID") : GeoFrame :=
  let look_for_centroids := look_for.geoms.map Geometry.centroid
  let counts := objects.geoms.map fun g =>
    Val.num ((radius look_for_centroids g.centroid 400).length : ℚ)
  ⟨objects.geoms, setCol objects.attrs column_name counts⟩

/-- Inner merge `left.merge(right, on=key)` (intensity.py lines 134 and
189): KeyError unless both tables carry the label `key`; otherwise, walking
the left rows in order and for each of them the matching right rows in
order, the combined row holds the left cells followed by the right cells
minus the key; shared non-key labels get pandas' `_x`/`_y` suffixes, and the
result gets a fresh RangeIndex. -/
def mergeInner (left right : Frame) (key : String) : Except String Frame :=
  if left.cols.contains key && right.cols.contains key then
    let rkeep := right.cols.filter fun c => c != key
    let lcols := left.cols.map fun c =>
      if c != key && right.cols.contains c then c ++ "_x" else c
    let rcols := rkeep.map fun c => if left.cols.contains c then c ++ "_y" else c
    .ok ⟨lcols ++ rcols,
      left.rows.flatMap fun lrow =>
        (right.rows.filter fun rrow =>
            decide (getVal right.cols rrow key = getVal left.cols lrow key)).map
          fun rrow => lrow ++ rkeep.map fun c => (getVal right.cols rrow c).getD Val.nan⟩
  else .error ("KeyError: " ++ key)

/-- Float division of two cells as numpy performs it in the fill loops
(`row[look_for_area_column] / row[area_column]`, intensity.py lines 144 and
199): finite by nonzero finite is exact, a zero denominator yields the
signed infinity or NaN marker instead of raising, and NaN propagates. -/
def fdiv : Val → Val → Val
  | .num a, .num b =>
      if b = 0 then (if 0 < a then .pinf else if a < 0 then .ninf else .nan)
      else .num (a / b)
  | .nan, _ => .nan
  | _, .nan => .nan
  | .pinf, .num b => if 0 ≤ b then .pinf else .ninf
  | .ninf, .num b => if 0 ≤ b then .ninf else .pinf
  | .pinf, _ => .nan
  | .ninf, _ => .nan
  | .num _, .pinf => .num 0
  | .num _, .ninf => .num 0

/-- The CAR/FAR fill loop (intensity.py lines 143-144 and 198-199): for
every merged row in order, the `look_for` area cell divided by the `objects`
area cell; a missing label raises KeyError. -/
def ratioVals (merged : Frame) (look_for_area_column area_column : String) :
    Except String (List Val) :=
  exMap (fun row => do
      let a ← req ("KeyError: " ++ look_for_area_column)
        (getVal merged.cols row look_for_area_column)
      let b ← req ("KeyError: " ++ area_column) (getVal merged.cols row area_column)
      .ok (fdiv a b))
    merged.rows

/-- The write-back `objects[column_name] = objects_merged[column_name]` of
intensity.py lines 148 and 203: the merged table carries a fresh RangeIndex,
so the assignment aligns by position — record `i` of `objects` receives the
i-th merged ratio, and records past the end of the merged table receive
NaN. -/
def alignColumn (m : ℕ) (vals : List Val) : List Val :=
  (List.range m).map fun i => vals.getD i Val.nan

/-- covered_area_ratio (intensity.py lines 99-151): project `look_for` to
`[id_column, look_for_area_column]`, inner-merge with `objects` on the
literal label "uID" (line 134 ignores `id_column`), divide per merged row,
and write the new column back to `objects` by positional alignment. -/
def covered_area_ratio (objects look_for : GeoFrame)
    (column_name area_column look_for_area_column : String)
    (id_column : String := "uID") : Except String GeoFrame := do
  let look_for_small ← select look_for.attrs [id_column, look_for_area_column]
  let objects_merged ← mergeInner objects.attrs look_for_small "uID"
  let vals ← ratioVals objects_merged look_for_area_column area_column
  .ok ⟨objects.geoms,
    setCol objects.attrs column_name (alignColumn objects.attrs.rows.length vals)⟩

/-- floor_area_ratio (intensity.py lines 154-206): the body is the very same
computation as covered_area_ratio, line for line (only the progress strings
differ); the caller alone decides whether the `look_for` column holds
footprint or floor area. -/
def floor_area_ratio (objects look_for : GeoFrame)
    (column_name area_column look_for_area_column : String)
    (id_column : String := "uID") : Except String GeoFrame := do
  let look_for_small ← select look_for.attrs [id_column, look_for_area_column]
  let objects_merged ← mergeInner objects.attrs look_for_small "uID"
  let vals ← ratioVals objects_merged look_for_area_column area_column
  .ok ⟨objects.geoms,
    setCol objects.attrs column_name (alignColumn objects.attrs.rows.length vals)⟩

/-- Distinct-unit count of one block:
`len(set(objects.loc[objects[block_id] == id][unique_id].tolist()))`
(intensity.py line 254). -/
def distinctUnits (objects : Frame) (block_id unique_id : String) (idv : Val) : ℕ :=
  (((objects.rows.filter fun row =>
        decide (getVal objects.cols row block_id = some idv)).map
      fun row => (getVal objects.cols row unique_id).getD Val.nan).dedup).length

/-- Block-area lookup `blocks.loc[blocks[block_id] == id].iloc[0]['geometry'].area`
(intensity.py line 256): KeyError when `blocks` lacks the block-id column,
IndexError when no block row matches (iloc[0] of an empty selection), else
the first matching record's geometry area. -/
def blockArea (blocks : GeoFrame) (block_id : String) (idv : Val) : Except String ℚ :=
  if blocks.attrs.cols.contains block_id then
    match (blocks.geoms.zip blocks.attrs.rows).find?
        (fun gr => decide (getVal blocks.attrs.cols gr.2 block_id = some idv)) with
    | some gr => .ok gr.1.area
    | none => .error "IndexError: single positional indexer is out-of-bounds"
  else .error ("KeyError: " ++ block_id)

/-- block_density (intensity.py lines 209-262): collect the block ids of the
objects (line 246), deduplicate them (line 248), and for each distinct id
record the distinct-unit count and the block polygon's area (lines 253-256);
then every record receives `10000 * count / area` (lines 258-259).  A block
id absent from `blocks` raises IndexError inside the aggregation loop, which
aborts the whole call before any density is produced; a zero block area
raises ZeroDivisionError in the write loop (the cells are plain Python
scalars there).  The dictionary passes make the result independent of the
unspecified `set` iteration order. -/
def block_density (objects : GeoFrame) (column_name : String) (blocks : GeoFrame)
    (block_id unique_id : String) : Except String GeoFrame := do
  let block_ids ← req ("KeyError: " ++ block_id)
    (if objects.attrs.cols.contains block_id then
      some (objects.attrs.rows.map fun row =>
        (getVal objects.attrs.cols row block_id).getD Val.nan)
    else none)
  let unique_block_ids := block_ids.dedup
  let table ← exMap (fun idv => do
      let _ ← req ("KeyError: " ++ unique_id)
        (if objects.attrs.cols.contains unique_id then some () else none)
      let area ← blockArea blocks block_id idv
      .ok (idv, distinctUnits objects.attrs block_id unique_id idv, area))
    unique_block_ids
  let vals ← exMap (fun idv => do
      match table.find? fun t => decide (t.1 = idv) with
      | some t =>
          if t.2.2 = 0 then Except.error "ZeroDivisionError: float division by zero"
          else .ok (Val.num (10000 * (t.2.1 : ℚ) / t.2.2))
      | none => .error "KeyError: block id")
    block_ids
  .ok ⟨objects.geoms, setCol objects.attrs column_name vals⟩

/-- The undefined markers a float cell can carry: everything that is not a
finite number. -/
def isUndefined : Val → Bool
  | .num _ => false
  | _ => true

lemma ok_bind {α β : Type} (a : α) (f : α → Except String β) :
    ((Except.ok a : Except String α) >>= f) = f a := rfl

lemma bind_ok_inv {α β : Type} {e : Except String α} {f : α → Except String β} {b : β}
    (h : (e >>= f) = .ok b) : ∃ a, e = .ok a ∧ f a = .ok b := by
  cases e with
  | ok a => exact ⟨a, rfl, h⟩
  | error msg => exact Except.noConfusion h

lemma exMap_ok_length {α β : Type} (f : α → Except String β) :
    ∀ (l : List α) (bs : List β), exMap f l = .ok bs → bs.length = l.length := by
  intro l
  induction l with
  | nil =>
    intro bs h
    simp only [exMap] at h
    cases h
    rfl
  | cons a l ih =>
    intro bs h
    simp only [exMap] at h
    obtain ⟨b, hb, h⟩ := bind_ok_inv h
    obtain ⟨bs', hbs, h⟩ := bind_ok_inv h
    injection h with h
    subst h
    simp [ih bs' hbs]

lemma exMap_ok_index {α β : Type} (f : α → Except String β) :
    ∀ (l : List α) (bs : List β), exMap f l = .ok bs →
      ∀ (i : ℕ) (a : α), l[i]? = some a → ∃ b, f a = .ok b ∧ bs[i]? = some b := by
  intro l
  induction l with
  | nil => intro bs _ i a ha; simp at ha
  | cons x l ih =>
    intro bs h i a ha
    simp only [exMap] at h
    obtain ⟨b, hb, h⟩ := bind_ok_inv h
    obtain ⟨bs', hbs, h⟩ := bind_ok_inv h
    injection h with h
    subst h
    cases i with
    | zero =>
      simp only [List.getElem?_cons_zero, Option.some.injEq] at ha
      exact ⟨b, ha ▸ hb, by simp⟩
    | succ i =>
      simp only [List.getElem?_cons_succ] at ha
      obtain ⟨b', hb', hidx⟩ := ih bs' hbs i a ha
      exact ⟨b', hb', by simpa using hidx⟩

lemma exMap_ok_of_forall {α β : Type} (f : α → Except String β) :
    ∀ l : List α, (∀ a ∈ l, ∃ b, f a = .ok b) → ∃ bs, exMap f l = .ok bs := by
  intro l
  induction l with
  | nil => intro _; exact ⟨[], rfl⟩
  | cons x l ih =>
    intro h
    obtain ⟨b, hb⟩ := h x (by simp)
    obtain ⟨bs, hbs⟩ := ih fun a ha => h a (by simp [ha])
    exact ⟨b :: bs, by simp only [exMap, hb, hbs, ok_bind]⟩

lemma exMap_not_ok {α β : Type} (f : α → Except String β) :
    ∀ (l : List α) (a : α), a ∈ l → (∀ b, f a ≠ .ok b) →
      ∃ e, exMap f l = .error e := by
  intro l
  induction l with
  | nil => intro a ha; simp at ha
  | cons x l ih =>
    intro a ha hf
    rcases List.mem_cons.mp ha with rfl | ha
    · cases hx : f a with
      | error e => exact ⟨e, by simp only [exMap, hx]; rfl⟩
      | ok b => exact absurd hx (hf b)
    · cases hx : f x with
      | error e => exact ⟨e, by simp only [exMap, hx]; rfl⟩
      | ok b =>
        obtain ⟨e, he⟩ := ih a ha hf
        exact ⟨e, by simp only [exMap, hx, ok_bind, he]; rfl⟩

lemma colIdx_append_none :
    ∀ (cols : List String) (c : String), colIdx cols c = none →
      colIdx (cols ++ [c]) c = some cols.length := by
  intro cols
  induction cols with
  | nil => intro c _; simp [colIdx]
  | cons d cols ih =>
    intro c h
    rw [List.cons_append]
    simp only [colIdx] at h ⊢
    by_cases hd : d = c
    · rw [if_pos hd] at h
      exact absurd h (by simp)
    · rw [if_neg hd] at h ⊢
      cases hcc : colIdx cols c with
      | some k => rw [hcc] at h; simp at h
      | none => rw [ih c hcc]; simp

lemma getVal_append_fresh (cols : List String) (row : List Val) (c : String) (v : Val)
    (hfresh : colIdx cols c = none) (hlen : row.length = cols.length) :
    getVal (cols ++ [c]) (row ++ [v]) c = some v := by
  unfold getVal
  rw [colIdx_append_none cols c hfresh]
  simp [List.getElem?_append, hlen]

lemma setCol_cols_fresh (f : Frame) (c : String) (vals : List Val)
    (hfresh : colIdx f.cols c = none) :
    (setCol f c vals).cols = f.cols ++ [c] := by
  simp [setCol, hfresh]

lemma setCol_rows_fresh (f : Frame) (c : String) (vals : List Val)
    (hfresh : colIdx f.cols c = none) :
    (setCol f c vals).rows = f.rows.zipWith (fun row v => row ++ [v]) vals := by
  simp [setCol, hfresh]

lemma setCol_rows_length_fresh (f : Frame) (c : String) (vals : List Val)
    (hfresh : colIdx f.cols c = none) (hlen : vals.length = f.rows.length) :
    (setCol f c vals).rows.length = f.rows.length := by
  rw [setCol_rows_fresh f c vals hfresh, List.length_zipWith, hlen]
  omega

lemma cellAt_setCol_fresh (f : Frame) (c : String) (vals : List Val)
    (hfresh : colIdx f.cols c = none)
    (hwf : ∀ row ∈ f.rows, row.length = f.cols.length)
    (hlen : vals.length = f.rows.length) :
    ∀ i, i < f.rows.length → cellAt (setCol f c vals) i c = vals[i]? := by
  intro i hi
  have hiv : i < vals.length := by omega
  have hrow : f.rows[i]? = some (f.rows[i]) := List.getElem?_eq_getElem hi
  have hval : vals[i]? = some (vals[i]) := List.getElem?_eq_getElem hiv
  unfold cellAt
  rw [setCol_rows_fresh f c vals hfresh, setCol_cols_fresh f c vals hfresh]
  rw [List.getElem?_zipWith, hrow, hval]
  exact getVal_append_fresh f.cols (f.rows[i]) c (vals[i]) hfresh
    (hwf (f.rows[i]) (List.getElem_mem hi))

/-- The positional column values written by the CAR/FAR write-back: one per
record, padding with NaN past the merged length. -/
lemma alignColumn_length (m : ℕ) (vals : List Val) : (alignColumn m vals).length = m := by
  simp [alignColumn]

lemma alignColumn_getElem (m : ℕ) (vals : List Val) (i : ℕ) (hi : i < m) :
    (alignColumn m vals)[i]? = some (vals.getD i Val.nan) := by
  simp [alignColumn, List.getElem?_map, List.getElem?_range hi]

lemma fdiv_den_zero (a : ℚ) : isUndefined (fdiv (Val.num a) (Val.num 0)) = true := by
  show isUndefined (if (0 : ℚ) = 0 then
    (if 0 < a then Val.pinf else if a < 0 then Val.ninf else Val.nan)
    else Val.num (a / 0)) = true
  rw [if_pos rfl]
  split_ifs <;> rfl

/-- C10. covered_area_ratio and floor_area_ratio are extensionally equal:
on every pair of datasets and every choice of the column-name parameters
they produce the same result, because their bodies are the same computation
line for line; only the meaning the caller attaches to the `look_for` area
column differs. -/
theorem car_far_extensionally_equal (objects look_for : GeoFrame)
    (column_name area_column look_for_area_column id_column : String) :
    covered_area_ratio objects look_for column_name area_column look_for_area_column
        id_column =
      floor_area_ratio objects look_for column_name area_column look_for_area_column
        id_column := rfl

/-- Two records with areas 10 and 10 under ids 1 and 2; only id 2 has a
covering record (area 30) in the reference dataset, so the join drops the
record with id 1. -/
def exObjects : GeoFrame :=
  ⟨[.point ⟨0, 0⟩, .point ⟨3, 0⟩],
    ⟨["uID", "area"], [[.num 1, .num 10], [.num 2, .num 10]]⟩⟩

def exLookFor : GeoFrame :=
  ⟨[.point ⟨0, 0⟩], ⟨["uID", "fl_area"], [[.num 2, .num 30]]⟩⟩

/-- Frames whose join key column is named "bID" on both sides: the spec says
the ratio functions join on the caller-supplied key, but the source merges
on the literal label "uID" (intensity.py lines 134 and 189). -/
def exObjectsB : GeoFrame :=
  ⟨[.point ⟨0, 0⟩], ⟨["bID", "area"], [[.num 1, .num 10]]⟩⟩

def exLookForB : GeoFrame :=
  ⟨[.point ⟨0, 0⟩], ⟨["bID", "fl_area"], [[.num 1, .num 30]]⟩⟩

/-- C2. The ratio functions do not join on the caller-supplied `id_column`:
with `id_column = "bID"` and both datasets carrying that key, the merge of
intensity.py line 134/189 still asks for the literal label "uID" and raises
KeyError, where the documented behaviour would join on "bID" and produce the
ratio 30/10. -/
theorem area_ratio_ignores_id_column :
    covered_area_ratio exObjectsB exLookForB "car" "area" "fl_area" "bID" =
        .error "KeyError: uID" ∧
      floor_area_ratio exObjectsB exLookForB "far" "area" "fl_area" "bID" =
        .error "KeyError: uID" :=
  ⟨rfl, rfl⟩

/-- Counterexample for C3.  In `exObjects`/`exLookFor`, record 0 (id 1) has
no match and record 1 (id 2) does.  The claim demands NaN on record 0 and
the own ratio (a number) on record 1; the code instead drops the unmatched
row in the inner merge and re-attaches the ratio column by position, so
record 0 receives record 1's ratio (not NaN) and record 1 receives NaN. -/
theorem car_join_mismatch_counterexample :
    (do
      let F ← covered_area_ratio exObjects exLookFor "car" "area" "fl_area" "uID"
      Except.ok (decide (cellAt F.attrs 0 "car" = some Val.nan),
        decide (cellAt F.attrs 1 "car" = some Val.nan))) =
      Except.ok (false, true) := rfl

/-- C3 (amended). When the projection, the merge on "uID" and the ratio pass
succeed, the batch is not aborted and the new column is attached by
position: record `i` of `objects` receives the i-th ratio of the inner-joined
table when `i` is below the joined length, and NaN past it — so a join
mismatch yields NaN on trailing records and shifts ratios onto earlier
records, rather than marking the affected record itself. -/
theorem car_positional_alignment (objects look_for : GeoFrame)
    (column_name area_column look_for_area_column id_column : String)
    (look_for_small objects_merged : Frame) (vals : List Val)
    (hsel : select look_for.attrs [id_column, look_for_area_column] = .ok look_for_small)
    (hmer : mergeInner objects.attrs look_for_small "uID" = .ok objects_merged)
    (hrat : ratioVals objects_merged look_for_area_column area_column = .ok vals)
    (hfresh : colIdx objects.attrs.cols column_name = none)
    (hwf : ∀ row ∈ objects.attrs.rows, row.length = objects.attrs.cols.length) :
    ∃ F, covered_area_ratio objects look_for column_name area_column
          look_for_area_column id_column = .ok F ∧
      F.attrs.rows.length = objects.attrs.rows.length ∧
      ∀ i, i < objects.attrs.rows.length →
        cellAt F.attrs i column_name = some (vals.getD i Val.nan) := by
  refine ⟨⟨objects.geoms, setCol objects.attrs column_name
    (alignColumn objects.attrs.rows.length vals)⟩, ?_, ?_, ?_⟩
  · simp only [covered_area_ratio, hsel, hmer, hrat, ok_bind]
  · exact setCol_rows_length_fresh _ _ _ hfresh (alignColumn_length _ _)
  · intro i hi
    rw [cellAt_setCol_fresh _ _ _ hfresh hwf (alignColumn_length _ _) i hi]
    exact alignColumn_getElem _ _ i hi

/-- Witness for C3 (amended): on the explicit mismatching frames the run
succeeds and both records receive the positionally aligned values. -/
theorem car_positional_alignment_witness :
    ∃ F, covered_area_ratio exObjects exLookFor "car" "area" "fl_area" "uID" = .ok F ∧
      F.attrs.rows.length = exObjects.attrs.rows.length ∧
      ∀ i, i < exObjects.attrs.rows.length →
        cellAt F.attrs i "car" = some ([Val.num (30 / 10)].getD i Val.nan) :=
  car_positional_alignment exObjects exLookFor "car" "area" "fl_area" "uID"
    ⟨["uID", "fl_area"], [[.num 2, .num 30]]⟩
    ⟨["uID", "area", "fl_area"], [[.num 2, .num 10, .num 30]]⟩
    [Val.num (30 / 10)] rfl rfl rfl rfl (by decide)

/-- One record with a zero denominator area and one matching covering record
of area 5. -/
def exObjectsZero : GeoFrame :=
  ⟨[.point ⟨0, 0⟩], ⟨["uID", "area"], [[.num 1, .num 0]]⟩⟩

def exLookForZero : GeoFrame :=
  ⟨[.point ⟨0, 0⟩], ⟨["uID", "fl_area"], [[.num 1, .num 5]]⟩⟩

/-- C7. When a joined row's denominator area cell is zero, the float
division produces an explicit undefined marker (a signed infinity, or NaN
for 0/0) instead of raising, the whole pass still succeeds on both ratio
functions, and the marker is what the output column carries at that
position. -/
theorem ratio_zero_denominator_marker (objects look_for : GeoFrame)
    (column_name area_column look_for_area_column id_column : String)
    (look_for_small objects_merged : Frame) (vals : List Val)
    (i : ℕ) (row : List Val) (a : ℚ)
    (hsel : select look_for.attrs [id_column, look_for_area_column] = .ok look_for_small)
    (hmer : mergeInner objects.attrs look_for_small "uID" = .ok objects_merged)
    (hrat : ratioVals objects_merged look_for_area_column area_column = .ok vals)
    (hrow : objects_merged.rows[i]? = some row)
    (hnum : getVal objects_merged.cols row look_for_area_column = some (Val.num a))
    (hden : getVal objects_merged.cols row area_column = some (Val.num 0))
    (hfresh : colIdx objects.attrs.cols column_name = none)
    (hwf : ∀ r ∈ objects.attrs.rows, r.length = objects.attrs.cols.length) :
    ∃ v F, vals[i]? = some v ∧ isUndefined v = true ∧
      covered_area_ratio objects look_for column_name area_column
          look_for_area_column id_column = .ok F ∧
      floor_area_ratio objects look_for column_name area_column
          look_for_area_column id_column = .ok F ∧
      (i < objects.attrs.rows.length → cellAt F.attrs i column_name = some v) := by
  obtain ⟨v, hv, hidx⟩ := exMap_ok_index _ objects_merged.rows vals hrat i row hrow
  rw [hnum, hden] at hv
  simp only [req, ok_bind] at hv
  injection hv with hv
  refine ⟨v, ⟨objects.geoms, setCol objects.attrs column_name
    (alignColumn objects.attrs.rows.length vals)⟩, hidx, ?_, ?_, ?_, ?_⟩
  · rw [← hv]
    exact fdiv_den_zero a
  · simp only [covered_area_ratio, hsel, hmer, hrat, ok_bind]
  · simp only [floor_area_ratio, hsel, hmer, hrat, ok_bind]
  · intro hi
    rw [cellAt_setCol_fresh _ _ _ hfresh hwf (alignColumn_length _ _) i hi]
    rw [alignColumn_getElem _ _ i hi]
    rw [List.getD_eq_getElem?_getD, hidx]
    rfl

/-- Witness for C7: on the zero-denominator frames the marker is +inf and
both ratio passes succeed. -/
theorem ratio_zero_denominator_marker_witness :
    ∃ v F, [Val.pinf][0]? = some v ∧ isUndefined v = true ∧
      covered_area_ratio exObjectsZero exLookForZero "car" "area" "fl_area" "uID" =
        .ok F ∧
      floor_area_ratio exObjectsZero exLookForZero "car" "area" "fl_area" "uID" =
        .ok F ∧
      (0 < exObjectsZero.attrs.rows.length → cellAt F.attrs 0 "car" = some v) :=
  ratio_zero_denominator_marker exObjectsZero exLookForZero "car" "area" "fl_area" "uID"
    ⟨["uID", "fl_area"], [[.num 1, .num 5]]⟩
    ⟨["uID", "area", "fl_area"], [[.num 1, .num 0, .num 5]]⟩
    [Val.pinf] 0 [.num 1, .num 0, .num 5] 5
    rfl rfl rfl rfl rfl rfl rfl (by decide)

/-- C6. The frequency pass leaves the geometries unchanged and writes, for
every record, the length of the neighbour query over the reference
dataset's centroids centered at that record's centroid with radius 400.
The value of record `i` is a function of that record's centroid and of
`look_for` alone — the iteration order over `objects` cannot influence
it. -/
theorem frequency_counts_radius_neighbours (objects look_for : GeoFrame)
    (column_name id_column : String)
    (hfresh : colIdx objects.attrs.cols column_name = none)
    (hwf : ∀ row ∈ objects.attrs.rows, row.length = objects.attrs.cols.length)
    (hlen : objects.attrs.rows.length = objects.geoms.length) :
    (frequency objects look_for column_name id_column).geoms = objects.geoms ∧
      ∀ i g, objects.geoms[i]? = some g → i < objects.attrs.rows.length →
        cellAt (frequency objects look_for column_name id_column).attrs i column_name =
          some (Val.num
            ((radius (look_for.geoms.map Geometry.centroid) g.centroid 400).length : ℚ)) := by
  constructor
  · rfl
  · intro i g hg hi
    have hlen2 : (objects.geoms.map fun g =>
        Val.num ((radius (look_for.geoms.map Geometry.centroid) g.centroid 400).length : ℚ)).length =
        objects.attrs.rows.length := by
      simp [hlen]
    show cellAt (setCol objects.attrs column_name _) i column_name = _
    rw [cellAt_setCol_fresh _ _ _ hfresh hwf hlen2 i hi]
    rw [List.getElem?_map, hg]
    rfl

lemma colIdx_lt_length :
    ∀ (cols : List String) (c : String) (i : ℕ), colIdx cols c = some i → i < cols.length := by
  intro cols
  induction cols with
  | nil => intro c i h; simp [colIdx] at h
  | cons d cols ih =>
    intro c i h
    simp only [colIdx] at h
    by_cases hd : d = c
    · rw [if_pos hd] at h
      injection h with h
      subst h
      simp
    · rw [if_neg hd] at h
      cases hcc : colIdx cols c with
      | none => rw [hcc] at h; simp at h
      | some k =>
        rw [hcc] at h
        simp at h
        have := ih c k hcc
        simp only [List.length_cons]
        omega

lemma contains_colIdx :
    ∀ (cols : List String) (c : String), cols.contains c = true →
      ∃ i, colIdx cols c = some i := by
  intro cols
  induction cols with
  | nil => intro c h; simp at h
  | cons d cols ih =>
    intro c h
    by_cases hd : d = c
    · exact ⟨0, by simp [colIdx, hd]⟩
    · have hc : cols.contains c = true := by
        simp only [List.contains_cons, Bool.or_eq_true, beq_iff_eq] at h
        rcases h with h | h
        · exact absurd h.symm hd
        · exact h
      obtain ⟨i, hi⟩ := ih c hc
      exact ⟨i + 1, by simp [colIdx, hd, hi]⟩

lemma getVal_some_of_contains (cols : List String) (row : List Val) (c : String)
    (hc : cols.contains c = true) (hlen : row.length = cols.length) :
    ∃ v, getVal cols row c = some v := by
  obtain ⟨i, hi⟩ := contains_colIdx cols c hc
  have hlt := colIdx_lt_length cols c i hi
  have hltr : i < row.length := by omega
  refine ⟨row[i], ?_⟩
  unfold getVal
  rw [hi]
  simp [List.getElem?_eq_getElem]

/-- Finding by key in a table whose j-th entry was produced from the j-th
key of a duplicate-free key list: the search returns that key's own entry. -/
lemma find?_of_indexed {α β : Type} [DecidableEq α] :
    ∀ (l : List α) (tb : List β) (key : β → α) (P : α → β → Prop),
      tb.length = l.length →
      (∀ (j : ℕ) (v : α), l[j]? = some v → ∃ t, tb[j]? = some t ∧ key t = v ∧ P v t) →
      l.Nodup → ∀ a ∈ l,
        ∃ t, tb.find? (fun t => decide (key t = a)) = some t ∧ key t = a ∧ P a t := by
  intro l
  induction l with
  | nil => intro tb key P _ _ _ a ha; simp at ha
  | cons v l ih =>
    intro tb key P hlen hidx hnd a ha
    cases tb with
    | nil => simp at hlen
    | cons t tb =>
      obtain ⟨t0, ht0, hkey, hP⟩ := hidx 0 v (by simp)
      simp only [List.getElem?_cons_zero, Option.some.injEq] at ht0
      subst ht0
      rcases List.mem_cons.mp ha with rfl | ha'
      · exact ⟨t, by simp [List.find?_cons, hkey], hkey, hP⟩
      · have hne : key t ≠ a := by
          rw [hkey]
          intro h
          exact (List.nodup_cons.mp hnd).1 (h ▸ ha')
        obtain ⟨t', ht', hk', hP'⟩ := ih tb key P (by simpa using hlen)
          (fun j w hj => by
            obtain ⟨u, hu, hku, hPu⟩ := hidx (j + 1) w (by simpa using hj)
            exact ⟨u, by simpa using hu, hku, hPu⟩)
          (List.nodup_cons.mp hnd).2 a ha'
        refine ⟨t', ?_, hk', hP'⟩
        rw [List.find?_cons]
        simp [hne, ht']

lemma error_bind {α β : Type} (e : String) (f : α → Except String β) :
    ((Except.error e : Except String α) >>= f) = .error e := rfl

lemma req_some {α : Type} (e : String) (a : α) : req e (some a) = .ok a := rfl

lemma lt_of_idx {α : Type} {l : List α} {i : ℕ} {a : α} (h : l[i]? = some a) :
    i < l.length := by
  by_contra hlt
  rw [List.getElem?_eq_none (by omega)] at h
  exact Option.noConfusion h

lemma mem_of_idx {α : Type} {l : List α} {i : ℕ} {a : α} (h : l[i]? = some a) : a ∈ l := by
  have hi : i < l.length := lt_of_idx h
  have := List.getElem?_eq_getElem hi
  rw [this] at h
  injection h with h
  exact h ▸ List.getElem_mem hi

/-- One successful run of block_density, read off the source structure:
when both id columns exist and every referenced block id has a nonzero-area
block, the call succeeds, producing one value per record, and the value at
position `i` is `10000 * distinct-unit-count / block-area` for the block id
of record `i`. -/
lemma block_density_run (objects blocks : GeoFrame)
    (column_name block_id unique_id : String)
    (hbid : objects.attrs.cols.contains block_id = true)
    (huid : objects.attrs.cols.contains unique_id = true)
    (harea : ∀ idv ∈ objects.attrs.rows.map
        (fun row => (getVal objects.attrs.cols row block_id).getD Val.nan),
      ∃ q, blockArea blocks block_id idv = .ok q ∧ q ≠ 0) :
    ∃ vals : List Val, vals.length = objects.attrs.rows.length ∧
      block_density objects column_name blocks block_id unique_id =
        .ok ⟨objects.geoms, setCol objects.attrs column_name vals⟩ ∧
      ∀ (i : ℕ) (idv : Val), (objects.attrs.rows.map
          (fun row => (getVal objects.attrs.cols row block_id).getD Val.nan))[i]? = some idv →
        ∃ q, blockArea blocks block_id idv = .ok q ∧
          vals[i]? = some (Val.num
            (10000 * (distinctUnits objects.attrs block_id unique_id idv : ℚ) / q)) := by
  classical
  set bids := objects.attrs.rows.map
    (fun row => (getVal objects.attrs.cols row block_id).getD Val.nan) with hbids
  -- the aggregation step of lines 253-256, as it appears in the definition
  set perId : Val → Except String (Val × ℕ × ℚ) := fun idv => do
      let _ ← req ("KeyError: " ++ unique_id)
        (if objects.attrs.cols.contains unique_id then some () else none)
      let area ← blockArea blocks block_id idv
      .ok (idv, distinctUnits objects.attrs block_id unique_id idv, area)
    with hperId
  have hperId_ok : ∀ idv ∈ bids.dedup, ∃ t, perId idv = .ok t := by
    intro idv hmem
    obtain ⟨q, hq, _⟩ := harea idv (List.mem_dedup.mp hmem)
    refine ⟨(idv, distinctUnits objects.attrs block_id unique_id idv, q), ?_⟩
    rw [hperId]
    simp only [if_pos huid, req_some, ok_bind, hq]
  obtain ⟨table, htable⟩ := exMap_ok_of_forall perId bids.dedup hperId_ok
  have hinv : ∀ (v : Val) (t : Val × ℕ × ℚ), perId v = .ok t →
      t.1 = v ∧ t.2.1 = distinctUnits objects.attrs block_id unique_id v ∧
        blockArea blocks block_id v = .ok t.2.2 := by
    intro v t h
    rw [hperId] at h
    simp only [if_pos huid, req_some, ok_bind] at h
    obtain ⟨q, hq, h2⟩ := bind_ok_inv h
    injection h2 with h2
    rw [← h2]
    exact ⟨rfl, rfl, hq⟩
  have hfind : ∀ idv ∈ bids.dedup,
      ∃ t, table.find? (fun t => decide (t.1 = idv)) = some t ∧ t.1 = idv ∧
        (t.2.1 = distinctUnits objects.attrs block_id unique_id idv ∧
          blockArea blocks block_id idv = .ok t.2.2 ∧ t.2.2 ≠ 0) := by
    apply find?_of_indexed bids.dedup table Prod.fst _
      (exMap_ok_length perId bids.dedup table htable)
      (fun j v hj => by
        obtain ⟨t, hft, hidx⟩ := exMap_ok_index perId bids.dedup table htable j v hj
        obtain ⟨h1, h2, h3⟩ := hinv v t hft
        obtain ⟨q, hq, hq0⟩ := harea v
          (List.mem_dedup.mp (mem_of_idx hj))
        have : t.2.2 = q := Except.ok.inj (h3.symm.trans hq)
        exact ⟨t, hidx, h1, h2, h3, this ▸ hq0⟩)
      (List.nodup_dedup bids)
  -- the write loop of lines 258-259
  set writeRow : Val → Except String Val := fun idv =>
      match table.find? fun t => decide (t.1 = idv) with
      | some t =>
          if t.2.2 = 0 then Except.error "ZeroDivisionError: float division by zero"
          else .ok (Val.num (10000 * (t.2.1 : ℚ) / t.2.2))
      | none => .error "KeyError: block id"
    with hwriteRow
  have hwrite_ok : ∀ idv ∈ bids, writeRow idv =
      .ok (Val.num (10000 * (distinctUnits objects.attrs block_id unique_id idv : ℚ) /
        (blockArea blocks block_id idv).toOption.getD 1)) := by
    intro idv hmem
    obtain ⟨t, hft, hkey, hcnt, hq, hq0⟩ := hfind idv (List.mem_dedup.mpr hmem)
    rw [hwriteRow]
    simp only [hft, if_neg hq0, hcnt]
    rw [hq]
    rfl
  obtain ⟨vals, hvals⟩ := exMap_ok_of_forall writeRow bids
    (fun idv hmem => ⟨_, hwrite_ok idv hmem⟩)
  refine ⟨vals, ?_, ?_, ?_⟩
  · rw [exMap_ok_length writeRow bids vals hvals, hbids, List.length_map]
  · simp only [block_density, if_pos hbid, req_some, ok_bind]
    rw [← hbids, ← hperId, htable]
    simp only [ok_bind]
    rw [← hwriteRow, hvals]
    simp only [ok_bind]
  · intro i idv hi
    obtain ⟨w, hw, hwidx⟩ := exMap_ok_index writeRow bids vals hvals i idv hi
    have hmem : idv ∈ bids := mem_of_idx hi
    obtain ⟨q, hq, hq0⟩ := harea idv hmem
    refine ⟨q, hq, ?_⟩
    have hw2 := (hwrite_ok idv hmem).symm.trans hw
    injection hw2 with hw2
    rw [hwidx, ← hw2, hq]
    rfl

/-- C4. When every referenced block exists with nonzero area, block_density
succeeds and assigns to each record `10000` times the number of distinct
unique-id values among the objects sharing its block id, divided by that
block's polygon area; records sharing a block id receive the same value. -/
theorem block_density_values (objects blocks : GeoFrame)
    (column_name block_id unique_id : String)
    (hfresh : colIdx objects.attrs.cols column_name = none)
    (hwf : ∀ row ∈ objects.attrs.rows, row.length = objects.attrs.cols.length)
    (hbid : objects.attrs.cols.contains block_id = true)
    (huid : objects.attrs.cols.contains unique_id = true)
    (harea : ∀ idv ∈ objects.attrs.rows.map
        (fun row => (getVal objects.attrs.cols row block_id).getD Val.nan),
      ∃ q, blockArea blocks block_id idv = .ok q ∧ q ≠ 0) :
    ∃ F, block_density objects column_name blocks block_id unique_id = .ok F ∧
      (∀ i row, objects.attrs.rows[i]? = some row →
        ∃ idv q, getVal objects.attrs.cols row block_id = some idv ∧
          blockArea blocks block_id idv = .ok q ∧
          cellAt F.attrs i column_name = some (Val.num
            (10000 * (distinctUnits objects.attrs block_id unique_id idv : ℚ) / q))) ∧
      (∀ i j rowi rowj, objects.attrs.rows[i]? = some rowi →
        objects.attrs.rows[j]? = some rowj →
        getVal objects.attrs.cols rowi block_id = getVal objects.attrs.cols rowj block_id →
        cellAt F.attrs i column_name = cellAt F.attrs j column_name) := by
  obtain ⟨vals, hlen, hrun, hval⟩ :=
    block_density_run objects blocks column_name block_id unique_id hbid huid harea
  have key : ∀ i row, objects.attrs.rows[i]? = some row →
      ∃ idv q, getVal objects.attrs.cols row block_id = some idv ∧
        blockArea blocks block_id idv = .ok q ∧
        cellAt (setCol objects.attrs column_name vals) i column_name =
          some (Val.num
            (10000 * (distinctUnits objects.attrs block_id unique_id idv : ℚ) / q)) := by
    intro i row hrow
    have hi : i < objects.attrs.rows.length := lt_of_idx hrow
    obtain ⟨idv, hidv⟩ := getVal_some_of_contains objects.attrs.cols row block_id hbid
      (hwf row (mem_of_idx hrow))
    have hbidsidx : (objects.attrs.rows.map
        (fun row => (getVal objects.attrs.cols row block_id).getD Val.nan))[i]? =
        some idv := by
      rw [List.getElem?_map, hrow]
      simp [hidv]
    obtain ⟨q, hq, hvidx⟩ := hval i idv hbidsidx
    refine ⟨idv, q, hidv, hq, ?_⟩
    rw [cellAt_setCol_fresh _ _ _ hfresh hwf hlen i hi, hvidx]
  refine ⟨⟨objects.geoms, setCol objects.attrs column_name vals⟩, hrun, key, ?_⟩
  intro i j rowi rowj hri hrj heq
  obtain ⟨idvi, qi, h1i, h2i, h3i⟩ := key i rowi hri
  obtain ⟨idvj, qj, h1j, h2j, h3j⟩ := key j rowj hrj
  have hij : idvi = idvj := by
    rw [h1i, h1j] at heq
    exact Option.some.inj heq
  subst hij
  have hqq : qi = qj := Except.ok.inj (h2i.symm.trans h2j)
  subst hqq
  rw [h3i, h3j]

/-- Two records in block 1 with distinct unit ids 7 and 8; the block is the
unit square, area 1. -/
def exBDObjects : GeoFrame :=
  ⟨[.point ⟨0, 0⟩, .point ⟨1, 0⟩],
    ⟨["bID", "uID"], [[.num 1, .num 7], [.num 1, .num 8]]⟩⟩

def exBlocks : GeoFrame :=
  ⟨[.polygon [⟨0, 0⟩, ⟨1, 0⟩, ⟨1, 1⟩, ⟨0, 1⟩]], ⟨["bID"], [[.num 1]]⟩⟩

lemma exBlocks_area_ne :
    ∀ idv ∈ exBDObjects.attrs.rows.map
        (fun row => (getVal exBDObjects.attrs.cols row "bID").getD Val.nan),
      ∃ q, blockArea exBlocks "bID" idv = .ok q ∧ q ≠ 0 := by
  intro idv hv
  have hlist : exBDObjects.attrs.rows.map
      (fun row => (getVal exBDObjects.attrs.cols row "bID").getD Val.nan) =
      [Val.num 1, Val.num 1] := rfl
  rw [hlist] at hv
  simp only [List.mem_cons, List.not_mem_nil, or_false, or_self] at hv
  subst hv
  refine ⟨(Geometry.polygon [⟨0, 0⟩, ⟨1, 0⟩, ⟨1, 1⟩, ⟨0, 1⟩]).area, rfl, ?_⟩
  norm_num [Geometry.area, shoelace, List.rotate]

/-- Witness for C4: two records in the unit-square block receive the common
density 10000 * 2 / 1. -/
theorem block_density_values_witness :
    ∃ F, block_density exBDObjects "bd" exBlocks "bID" "uID" = .ok F ∧
      (∀ i row, exBDObjects.attrs.rows[i]? = some row →
        ∃ idv q, getVal exBDObjects.attrs.cols row "bID" = some idv ∧
          blockArea exBlocks "bID" idv = .ok q ∧
          cellAt F.attrs i "bd" = some (Val.num
            (10000 * (distinctUnits exBDObjects.attrs "bID" "uID" idv : ℚ) / q))) ∧
      (∀ i j rowi rowj, exBDObjects.attrs.rows[i]? = some rowi →
        exBDObjects.attrs.rows[j]? = some rowj →
        getVal exBDObjects.attrs.cols rowi "bID" = getVal exBDObjects.attrs.cols rowj "bID" →
        cellAt F.attrs i "bd" = cellAt F.attrs j "bd") :=
  block_density_values exBDObjects exBlocks "bd" "bID" "uID" rfl (by decide) rfl rfl
    exBlocks_area_ne

/-- Two block ids 1 and 2 in the objects, but only block 1 exists. -/
def exBDObjectsMiss : GeoFrame :=
  ⟨[.point ⟨0, 0⟩, .point ⟨1, 0⟩],
    ⟨["bID", "uID"], [[.num 1, .num 7], [.num 2, .num 8]]⟩⟩

def exBlocksPoint : GeoFrame :=
  ⟨[.point ⟨0, 0⟩], ⟨["bID"], [[.num 1]]⟩⟩

/-- Counterexample for C5.  Object 0 references the existing block 1,
object 1 references the absent block 2.  The claim demands an error on the
affected object only, with the rest of the computation surviving; the code
instead raises IndexError inside the aggregation loop, so the whole call
aborts and no object receives a value. -/
theorem block_density_missing_block_counterexample :
    block_density exBDObjectsMiss "bd" exBlocksPoint "bID" "uID" =
      .error "IndexError: single positional indexer is out-of-bounds" := rfl

/-- C5 (amended). A block id present in `objects` but absent from `blocks`
makes the whole block_density call fail with an error (the IndexError of the
aggregation loop): the batch is aborted and no record receives a value,
rather than only the affected record being marked. -/
theorem block_density_missing_block_aborts (objects blocks : GeoFrame)
    (column_name block_id unique_id : String) (idv : Val)
    (hbid : objects.attrs.cols.contains block_id = true)
    (huid : objects.attrs.cols.contains unique_id = true)
    (hmem : idv ∈ objects.attrs.rows.map
        (fun row => (getVal objects.attrs.cols row block_id).getD Val.nan))
    (hmiss : ∀ q, blockArea blocks block_id idv ≠ .ok q) :
    ∃ e, block_density objects column_name blocks block_id unique_id = .error e := by
  classical
  set bids := objects.attrs.rows.map
    (fun row => (getVal objects.attrs.cols row block_id).getD Val.nan) with hbids
  set perId : Val → Except String (Val × ℕ × ℚ) := fun idv => do
      let _ ← req ("KeyError: " ++ unique_id)
        (if objects.attrs.cols.contains unique_id then some () else none)
      let area ← blockArea blocks block_id idv
      .ok (idv, distinctUnits objects.attrs block_id unique_id idv, area)
    with hperId
  have hf : ∀ t, perId idv ≠ .ok t := by
    intro t h
    rw [hperId] at h
    simp only [if_pos huid, req_some, ok_bind] at h
    obtain ⟨q, hq, _⟩ := bind_ok_inv h
    exact hmiss q hq
  obtain ⟨e, he⟩ := exMap_not_ok perId bids.dedup idv (List.mem_dedup.mpr hmem) hf
  refine ⟨e, ?_⟩
  simp only [block_density, if_pos hbid, req_some, ok_bind]
  rw [← hbids, ← hperId, he]
  rfl

/-- Witness for C5 (amended): block id 2 is referenced and absent, and the
whole call errors. -/
theorem block_density_missing_block_aborts_witness :
    ∃ e, block_density exBDObjectsMiss "bd" exBlocksPoint "bID" "uID" = .error e :=
  block_density_missing_block_aborts exBDObjectsMiss exBlocksPoint "bd" "bID" "uID"
    (Val.num 2) rfl rfl (by decide)
    (by
      intro q h
      rw [show blockArea exBlocksPoint "bID" (Val.num 2) =
        .error "IndexError: single positional indexer is out-of-bounds" from rfl] at h
      exact Except.noConfusion h)

/-- Witness for C6: one record at the origin against a reference dataset of
two points; its cell is the length of the corresponding neighbour query. -/
theorem frequency_counts_witness :
    (frequency exObjectsZero exLookFor "freq" "uID").geoms = exObjectsZero.geoms ∧
      ∀ i g, exObjectsZero.geoms[i]? = some g → i < exObjectsZero.attrs.rows.length →
        cellAt (frequency exObjectsZero exLookFor "freq" "uID").attrs i "freq" =
          some (Val.num
            ((radius (exLookFor.geoms.map Geometry.centroid) g.centroid 400).length : ℚ)) :=
  frequency_counts_radius_neighbours exObjectsZero exLookFor "freq" "uID"
    rfl (by decide) rfl

/-- The frame effect every operation is allowed: the column labels gain
exactly the one new label at the end, and every record row is its old self
with exactly one appended cell — so no record is removed or reordered and no
pre-existing cell changes. -/
def addsOnlyColumn (before : Frame) (c : String) (after : Frame) : Prop :=
  after.cols = before.cols ++ [c] ∧
    ∃ vs : List Val, vs.length = before.rows.length ∧
      after.rows = before.rows.zipWith (fun row v => row ++ [v]) vs

lemma addsOnlyColumn_setCol (f : Frame) (c : String) (vals : List Val)
    (hfresh : colIdx f.cols c = none) (hlen : vals.length = f.rows.length) :
    addsOnlyColumn f c (setCol f c vals) :=
  ⟨setCol_cols_fresh f c vals hfresh, vals, hlen, setCol_rows_fresh f c vals hfresh⟩

lemma colIdx_append_of_some :
    ∀ (cols : List String) (c : String) (i : ℕ) (ext : List String),
      colIdx cols c = some i → colIdx (cols ++ ext) c = some i := by
  intro cols
  induction cols with
  | nil => intro c i ext h; simp [colIdx] at h
  | cons d cols ih =>
    intro c i ext h
    rw [List.cons_append]
    simp only [colIdx] at h ⊢
    by_cases hd : d = c
    · rwa [if_pos hd] at h ⊢
    · rw [if_neg hd] at h ⊢
      cases hcc : colIdx cols c with
      | none => rw [hcc] at h; simp at h
      | some k =>
        rw [hcc] at h
        rw [ih c k ext hcc]
        exact h

/-- Writing a fresh column leaves every pre-existing column's cells exactly
as they were. -/
lemma cellAt_setCol_old (f : Frame) (cn : String) (vals : List Val) (c : String)
    (hfresh : colIdx f.cols cn = none)
    (hwf : ∀ row ∈ f.rows, row.length = f.cols.length)
    (hlen : vals.length = f.rows.length)
    (hc : f.cols.contains c = true) :
    ∀ i, cellAt (setCol f cn vals) i c = cellAt f i c := by
  intro i
  unfold cellAt
  rw [setCol_rows_fresh _ _ _ hfresh, setCol_cols_fresh _ _ _ hfresh]
  cases hrow : f.rows[i]? with
  | none =>
    have hi : ¬ i < f.rows.length := by
      intro hi
      rw [List.getElem?_eq_getElem hi] at hrow
      exact Option.noConfusion hrow
    rw [List.getElem?_zipWith, hrow]
    rfl
  | some row =>
    have hvi : i < vals.length := by
      rw [hlen]
      exact lt_of_idx hrow
    rw [List.getElem?_zipWith, hrow, List.getElem?_eq_getElem hvi]
    show getVal (f.cols ++ [cn]) (row ++ [vals[i]]) c = getVal f.cols row c
    obtain ⟨k, hk⟩ := contains_colIdx f.cols c hc
    have hklt := colIdx_lt_length f.cols c k hk
    unfold getVal
    rw [hk, colIdx_append_of_some f.cols c k [cn] hk]
    have hrl : row.length = f.cols.length := hwf row (mem_of_idx hrow)
    simp [List.getElem?_append, hrl, hklt]

/-- C9. Each of the four operations, on a successful run, leaves the
geometries and every pre-existing attribute cell of every `objects` record
unchanged, removes and reorders no record, and only appends the single named
result column. -/
theorem operations_add_single_column
    (objects look_for blocks : GeoFrame)
    (freq_col car_col far_col bd_col area_column look_for_area_column id_column
      block_id unique_id : String)
    (F2 F3 F4 : GeoFrame)
    (hwf : ∀ row ∈ objects.attrs.rows, row.length = objects.attrs.cols.length)
    (hlen : objects.attrs.rows.length = objects.geoms.length)
    (h1 : colIdx objects.attrs.cols freq_col = none)
    (h2 : colIdx objects.attrs.cols car_col = none)
    (h3 : colIdx objects.attrs.cols far_col = none)
    (h4 : colIdx objects.attrs.cols bd_col = none)
    (hcar : covered_area_ratio objects look_for car_col area_column
      look_for_area_column id_column = .ok F2)
    (hfar : floor_area_ratio objects look_for far_col area_column
      look_for_area_column id_column = .ok F3)
    (hbd : block_density objects bd_col blocks block_id unique_id = .ok F4) :
    ((frequency objects look_for freq_col id_column).geoms = objects.geoms ∧
      addsOnlyColumn objects.attrs freq_col
        (frequency objects look_for freq_col id_column).attrs ∧
      ∀ c, objects.attrs.cols.contains c = true → ∀ i,
        cellAt (frequency objects look_for freq_col id_column).attrs i c =
          cellAt objects.attrs i c) ∧
    (F2.geoms = objects.geoms ∧ addsOnlyColumn objects.attrs car_col F2.attrs ∧
      ∀ c, objects.attrs.cols.contains c = true → ∀ i,
        cellAt F2.attrs i c = cellAt objects.attrs i c) ∧
    (F3.geoms = objects.geoms ∧ addsOnlyColumn objects.attrs far_col F3.attrs ∧
      ∀ c, objects.attrs.cols.contains c = true → ∀ i,
        cellAt F3.attrs i c = cellAt objects.attrs i c) ∧
    (F4.geoms = objects.geoms ∧ addsOnlyColumn objects.attrs bd_col F4.attrs ∧
      ∀ c, objects.attrs.cols.contains c = true → ∀ i,
        cellAt F4.attrs i c = cellAt objects.attrs i c) := by
  have hfreqlen : (objects.geoms.map fun g =>
      Val.num ((radius (look_for.geoms.map Geometry.centroid) g.centroid 400).length : ℚ)).length =
      objects.attrs.rows.length := by
    simp [hlen]
  refine ⟨⟨rfl, addsOnlyColumn_setCol _ _ _ h1 hfreqlen,
    fun c hc i => cellAt_setCol_old _ _ _ c h1 hwf hfreqlen hc i⟩, ?_, ?_, ?_⟩
  · simp only [covered_area_ratio] at hcar
    obtain ⟨lfs, hsel, hcar⟩ := bind_ok_inv hcar
    obtain ⟨merged, hmer, hcar⟩ := bind_ok_inv hcar
    obtain ⟨vals, hrat, hcar⟩ := bind_ok_inv hcar
    injection hcar with hcar
    rw [← hcar]
    exact ⟨rfl, addsOnlyColumn_setCol _ _ _ h2 (alignColumn_length _ _),
      fun c hc i => cellAt_setCol_old _ _ _ c h2 hwf (alignColumn_length _ _) hc i⟩
  · simp only [floor_area_ratio] at hfar
    obtain ⟨lfs, hsel, hfar⟩ := bind_ok_inv hfar
    obtain ⟨merged, hmer, hfar⟩ := bind_ok_inv hfar
    obtain ⟨vals, hrat, hfar⟩ := bind_ok_inv hfar
    injection hfar with hfar
    rw [← hfar]
    exact ⟨rfl, addsOnlyColumn_setCol _ _ _ h3 (alignColumn_length _ _),
      fun c hc i => cellAt_setCol_old _ _ _ c h3 hwf (alignColumn_length _ _) hc i⟩
  · simp only [block_density] at hbd
    obtain ⟨bids, hreq, hbd⟩ := bind_ok_inv hbd
    cases hcont : objects.attrs.cols.contains block_id with
    | false =>
      rw [if_neg (by rw [hcont]; simp)] at hreq
      exact Except.noConfusion hreq
    | true =>
      rw [if_pos hcont, req_some] at hreq
      injection hreq with hreq
      obtain ⟨table, htable, hbd⟩ := bind_ok_inv hbd
      obtain ⟨vals, hvals, hbd⟩ := bind_ok_inv hbd
      injection hbd with hbd
      rw [← hbd]
      have hvlen : vals.length = objects.attrs.rows.length := by
        rw [exMap_ok_length _ bids vals hvals, ← hreq, List.length_map]
      exact ⟨rfl, addsOnlyColumn_setCol _ _ _ h4 hvlen,
        fun c hc i => cellAt_setCol_old _ _ _ c h4 hwf hvlen hc i⟩

/-- Records with block id 1, unit ids 7 and 8, and areas 10 and 20; the
reference dataset covers only unit 7 with area 30; the one block is the unit
square. -/
def exNine : GeoFrame :=
  ⟨[.point ⟨0, 0⟩, .point ⟨1, 0⟩],
    ⟨["bID", "uID", "area"],
      [[.num 1, .num 7, .num 10], [.num 1, .num 8, .num 20]]⟩⟩

def exNineLF : GeoFrame :=
  ⟨[.point ⟨0, 0⟩], ⟨["uID", "fl"], [[.num 7, .num 30]]⟩⟩

lemma exNine_area_ne :
    ∀ idv ∈ exNine.attrs.rows.map
        (fun row => (getVal exNine.attrs.cols row "bID").getD Val.nan),
      ∃ q, blockArea exBlocks "bID" idv = .ok q ∧ q ≠ 0 := by
  intro idv hv
  have hlist : exNine.attrs.rows.map
      (fun row => (getVal exNine.attrs.cols row "bID").getD Val.nan) =
      [Val.num 1, Val.num 1] := rfl
  rw [hlist] at hv
  simp only [List.mem_cons, List.not_mem_nil, or_false, or_self] at hv
  subst hv
  refine ⟨(Geometry.polygon [⟨0, 0⟩, ⟨1, 0⟩, ⟨1, 1⟩, ⟨0, 1⟩]).area, rfl, ?_⟩
  norm_num [Geometry.area, shoelace, List.rotate]

/-- Witness for C9: on concrete runs of all four operations over the same
objects dataset, each output keeps the geometries and the old cells and only
appends its one column. -/
theorem operations_add_single_column_witness :
    ∃ F2 F3 F4,
      covered_area_ratio exNine exNineLF "car" "area" "fl" "uID" = .ok F2 ∧
      floor_area_ratio exNine exNineLF "far" "area" "fl" "uID" = .ok F3 ∧
      block_density exNine "bd" exBlocks "bID" "uID" = .ok F4 ∧
      (((frequency exNine exNineLF "freq" "uID").geoms = exNine.geoms ∧
        addsOnlyColumn exNine.attrs "freq"
          (frequency exNine exNineLF "freq" "uID").attrs ∧
        ∀ c, exNine.attrs.cols.contains c = true → ∀ i,
          cellAt (frequency exNine exNineLF "freq" "uID").attrs i c =
            cellAt exNine.attrs i c) ∧
      (F2.geoms = exNine.geoms ∧ addsOnlyColumn exNine.attrs "car" F2.attrs ∧
        ∀ c, exNine.attrs.cols.contains c = true → ∀ i,
          cellAt F2.attrs i c = cellAt exNine.attrs i c) ∧
      (F3.geoms = exNine.geoms ∧ addsOnlyColumn exNine.attrs "far" F3.attrs ∧
        ∀ c, exNine.attrs.cols.contains c = true → ∀ i,
          cellAt F3.attrs i c = cellAt exNine.attrs i c) ∧
      (F4.geoms = exNine.geoms ∧ addsOnlyColumn exNine.attrs "bd" F4.attrs ∧
        ∀ c, exNine.attrs.cols.contains c = true → ∀ i,
          cellAt F4.attrs i c = cellAt exNine.attrs i c)) := by
  obtain ⟨vals4, hl4, hbd4, _⟩ :=
    block_density_run exNine exBlocks "bd" "bID" "uID" rfl rfl exNine_area_ne
  exact ⟨⟨exNine.geoms, ⟨["bID", "uID", "area", "car"],
      [[.num 1, .num 7, .num 10, .num (30 / 10)], [.num 1, .num 8, .num 20, .nan]]⟩⟩,
    ⟨exNine.geoms, ⟨["bID", "uID", "area", "far"],
      [[.num 1, .num 7, .num 10, .num (30 / 10)], [.num 1, .num 8, .num 20, .nan]]⟩⟩,
    ⟨exNine.geoms, setCol exNine.attrs "bd" vals4⟩,
    rfl, rfl, hbd4,
    operations_add_single_column exNine exNineLF exBlocks "freq" "car" "far" "bd"
      "area" "fl" "uID" "bID" "uID" _ _ _ (by decide) rfl rfl rfl rfl rfl rfl rfl hbd4⟩

end Momepy
